import Mathlib

set_option maxRecDepth 100000

/-
Verification of `cmd/gen-p5-example/main.go` from go-p5/go-p5.github.io.

The program is a one-shot generator: it clones go-p5/p5, compiles every
non-excluded `example/` subdirectory to WebAssembly, writes a wrapper HTML
page and the compiled artifact per example, stages each artifact with
`git add`, and finally writes a top-level `index.html`.

The embedding below models the run as a pure function from a `World`
(the oracles for every external interaction: the temp dir name, the
inherited environment, the outcome of `git clone`, the combined output of
`git describe`, the `wasm_exec.js` contents, the directory listing, and the
per-example result of `go build`) to a trace of external-effect `Event`s
plus the produced index page and the fatal-error message, if any.
`log.Fatalf` calls `os.Exit`, so a fatal step ends the trace immediately
(in particular, deferred cleanup does not run on the fatal path).
-/

/- ---------------------------------------------------------------------
   Generic string machinery: substring-occurrence counting over `List Char`.
   `countOccs p s` is the number of positions of `s` at which the pattern
   `p` occurs (as a contiguous substring).
--------------------------------------------------------------------- -/

/-- occurrence test: does `p` occur in `s` starting at position `i`? -/
def occAt (p s : List Char) (i : Nat) : Bool :=
  p.isPrefixOf (s.drop i)

/-- number of positions of `s` at which `p` occurs as a substring
(positions run from the start of `s` to just past its last element). -/
def countOccs (p : List Char) : List Char → Nat
  | [] => if p.isPrefixOf [] then 1 else 0
  | c :: s => (if p.isPrefixOf (c :: s) then 1 else 0) + countOccs p s

/-- string-level wrapper: number of occurrences of `pat` inside `s`. -/
def countSubstr (s pat : String) : Nat :=
  countOccs pat.data s.data

/-- no occurrence of `p` straddles the boundary between `x` and `y`. -/
def noStraddle (p x y : List Char) : Prop :=
  ∀ k, 0 < k → k < p.length → ¬ ((p.take k) <:+ x ∧ (p.drop k) <+: y)

/-- concatenation of a list of strings (the order-preserving fold the
index-page builder performs). -/
def concatAll : List String → String
  | [] => ""
  | s :: r => s ++ concatAll r

/- ---------------------------------------------------------------------
   Models of the Go standard-library functions the program calls.
--------------------------------------------------------------------- -/

/-- Modelled from the spec and Go's `unicode.IsSpace`: the White_Space
code points recognised by `strings.TrimSpace`. -/
def isSpaceGo (c : Char) : Bool :=
  c.toNat ∈ [0x9, 0xA, 0xB, 0xC, 0xD, 0x20, 0x85, 0xA0, 0x1680,
    0x2000, 0x2001, 0x2002, 0x2003, 0x2004, 0x2005, 0x2006, 0x2007,
    0x2008, 0x2009, 0x200A, 0x2028, 0x2029, 0x202F, 0x205F, 0x3000]

/-- Go `strings.TrimSpace`: drop leading and trailing white space. -/
def trimSpace (s : String) : String :=
  ⟨((s.data.dropWhile isSpaceGo).reverse.dropWhile isSpaceGo).reverse⟩

/-- Go `path/filepath.Base` for slash-separated paths (the volume-name
handling is empty on unix): empty path gives ".", trailing slashes are
stripped, then everything up to the final slash is removed; an all-slash
path gives "/". -/
def filepathBase (p : String) : String :=
  if p = "" then "."
  else
    let l := (p.data.reverse.dropWhile (fun c => c == '/')).reverse
    if l = [] then "/"
    else ⟨(l.reverse.takeWhile (fun c => c != '/')).reverse⟩

/-- hexadecimal digit character, used by the `%q` model. -/
def hexDigit (n : Nat) : Char :=
  if n < 10 then Char.ofNat (48 + n) else Char.ofNat (87 + n)

/-- Modelled from Go's `strconv.Quote` (the `%q` verb) for one character:
double quote and backslash are backslash-escaped, the named control
escapes are produced for the control characters that have one, other
ASCII control characters get a `\xHH` escape, and printable characters
are kept verbatim. -/
def goQuoteChar (c : Char) : String :=
  if c = '"' then "\\\""
  else if c = '\\' then "\\\\"
  else if c = '\n' then "\\n"
  else if c = '\t' then "\\t"
  else if c = '\r' then "\\r"
  else if c.toNat = 7 then "\\a"
  else if c.toNat = 8 then "\\b"
  else if c.toNat = 11 then "\\v"
  else if c.toNat = 12 then "\\f"
  else if 0x20 ≤ c.toNat && c.toNat < 0x7F then String.singleton c
  else if c.toNat < 0x80 then
    "\\x" ++ String.singleton (hexDigit (c.toNat / 16)) ++
      String.singleton (hexDigit (c.toNat % 16))
  else String.singleton c

/-- Modelled from Go's `strconv.Quote` (`%q`): the argument surrounded by
double quotes, with each character escaped as in `goQuoteChar`. -/
def goQuote (s : String) : String :=
  "\"" ++ concatAll (s.data.map goQuoteChar) ++ "\""

/-- value of entry `e` for environment key `key`, when `e` is of the form
`key=value`. -/
def envEntryValue (key : String) (e : String) : Option String :=
  if (key ++ "=").data.isPrefixOf e.data then
    some ⟨e.data.drop (key.length + 1)⟩
  else none

/-- Modelled from the documented behaviour of Go's `os/exec`: "If Env
contains duplicate environment keys, only the last value in the slice for
each duplicate key is used."  The effective value of `key` in a child
environment list is therefore the value of the last matching entry. -/
def envResolve (env : List String) (key : String) : Option String :=
  (env.filterMap (envEntryValue key)).getLast?

/- ---------------------------------------------------------------------
   The program's constants, transcribed verbatim from main.go.
--------------------------------------------------------------------- -/

/-- the fixed exclusion set `excludes` of main.go (a set literal; the map
is never mutated, so a list with membership testing is a faithful model). -/
def excludes : List String := ["sketch", "wasm-p5-ex"]

/-- the part of the `indexHTML` template before the first `%s` (page title). -/
def indexHTMLa : String := "\n<!doctype html>\n<!--\nCopyright 2018 The Go Authors. All rights reserved.\nUse of this source code is governed by a BSD-style\nlicense that can be found in the LICENSE file.\n-->\n<html>\n\n<head>\n        <meta charset=\"utf-8\">\n        <title>"

/-- the part of the `indexHTML` template between the two `%s` verbs. -/
def indexHTMLb : String := "</title>\n</head>\n\n<body>\n        <!--\n        Add the following polyfill for Microsoft Edge 17/18 support:\n        <script src=\"https://cdn.jsdelivr.net/npm/text-encoding@0.7.0/lib/encoding.min.js\"></script>\n        (see https://caniuse.com/#feat=textencoder)\n        -->\n\t\t<script src=\"https://go-p5.github.io/assets/wasm_exec.js\"></script>\n        <script>\n                if (!WebAssembly.instantiateStreaming) \x7b // polyfill\n                        WebAssembly.instantiateStreaming = async (resp, importObject) => \x7b\n                                const source = await (await resp).arrayBuffer();\n                                return await WebAssembly.instantiate(source, importObject);\n                        \x7d;\n                \x7d\n\n                const go = new Go();\n                let mod, inst;\n                WebAssembly.instantiateStreaming(fetch(\""

/-- the part of the `indexHTML` template after the second `%s` (wasm URL). -/
def indexHTMLc : String := "\"), go.importObject).then((result) => \x7b\n                        mod = result.module;\n                        inst = result.instance;\n                        document.getElementById(\"runButton\").disabled = false;\n                \x7d).catch((err) => \x7b\n                        console.error(err);\n                \x7d);\n\n                async function run() \x7b\n                        console.clear();\n                        await go.run(inst);\n                        inst = await WebAssembly.instantiate(mod, go.importObject); // reset instance\n                \x7d\n        </script>\n\n        <button onClick=\"run();\" id=\"runButton\" disabled>Run</button>\n</body>\n\n</html>\n"

/-- the `indexHTML` template constant of main.go (with its two `%s` verbs). -/
def indexHTML : String := indexHTMLa ++ "%s" ++ indexHTMLb ++ "%s" ++ indexHTMLc

/-- `fmt.Sprintf(indexHTML, title, src)`: the generated per-example page. -/
def indexHTMLStr (title src : String) : String :=
  indexHTMLa ++ title ++ indexHTMLb ++ src ++ indexHTMLc

/-- the part of the `rootHeader` template before its `%s` (revision). -/
def rootHeaderPre : String := "\n<!doctype html>\n<html>\n<head>\n        <meta charset=\"utf-8\">\n        <title>Go-P5</title>\n</head>\n\n<body>\n<h2>Welcome to the Go-P5 examples page (version="

/-- the part of the `rootHeader` template after its `%s`. -/
def rootHeaderSuf : String := ")</h2>\nThis page shows a few <code>go-p5</code> examples, compiled to <code>WASM</code>.\n\n<ul>\n"

/-- the `rootHeader` template constant of main.go (with its `%s` verb). -/
def rootHeader : String := rootHeaderPre ++ "%s" ++ rootHeaderSuf

/-- `fmt.Sprintf(rootHeader, revision)`: the index page's header. -/
def rootHeaderStr (revision : String) : String :=
  rootHeaderPre ++ revision ++ rootHeaderSuf

/-- the `rootFooter` constant of main.go. -/
def rootFooter : String := "\n</ul>\n</body>\n\n</html>\n"

/- ---------------------------------------------------------------------
   The per-example derived strings of the loop body of `gen`.
--------------------------------------------------------------------- -/

/-- `name := "example/" + dir.Name()` in the loop body. -/
def exampleName (d : String) : String := "example/" ++ d

/-- `title := "Go-P5: " + pkg` in the loop body. -/
def titleOf (pkg : String) : String := "Go-P5: " ++ pkg

/-- `src := fmt.Sprintf("https://go-p5.github.io/example/%s/%s.wasm", pkg, pkg)`. -/
def srcOf (pkg : String) : String :=
  "https://go-p5.github.io/example/" ++ pkg ++ "/" ++ pkg ++ ".wasm"

/-- `filepath.Join(name, "index.html")` for the clean names the loop builds. -/
def pagePath (name : String) : String := name ++ "/index.html"

/-- `fname := filepath.Join(name, pkg+".wasm")` for the clean names the
loop builds. -/
def wasmPath (name pkg : String) : String := name ++ "/" ++ pkg ++ ".wasm"

/-- the list item appended to the index builder for one example:
`fmt.Sprintf("<li><a href=%q>%s</a></li>\n", url, pkg)`. -/
def liLine (pkg : String) : String :=
  "<li><a href=" ++ goQuote ("https://go-p5.github.io/example/" ++ pkg ++ "/index.html") ++
    ">" ++ pkg ++ "</a></li>\n"

/-- the list item generated for directory entry `d`. -/
def liOf (d : String) : String := liLine (filepathBase (exampleName d))

/-- directory entries surviving the exclusion test, in enumeration order. -/
def survivors (ds : List String) : List String :=
  ds.filter (fun d => !(excludes.contains d))

/-- concatenation of the index list items for the non-excluded entries. -/
def liAll (ds : List String) : String :=
  concatAll ((survivors ds).map liOf)

/- ---------------------------------------------------------------------
   The run model.  An `Event` is one external effect of the program; a
   `World` supplies the outcome of every external interaction; `gen`
   replays `gen(vers)` of main.go over those oracles.
--------------------------------------------------------------------- -/

/-- one external effect of the run.  `gitClone` and `compile` write only
underneath the temporary directory (`git clone` runs with `cmd.Dir = tmp`;
`go build -o ../bin/<pkg>.wasm` runs with `cmd.Dir = tmp/p5`), so the
paths they create are not separate fields.  `compile pkg name dir env`
models `exec.Command("go", "build", "-o", "../bin/"+pkg+".wasm", "./"+name)`
run in `dir` with child environment list `env`. -/
inductive Event where
  | gitClone (vers url dir : String)
  | gitDescribe (dir : String)
  | mkdirAll (path : String)
  | writeFile (path content : String)
  | compile (pkg name dir : String) (env : List String)
  | gitAdd (path : String)
  | removeAll (dir : String)
deriving DecidableEq

/-- oracles for the external interactions of one run: the temp-dir name
`os.MkdirTemp` returns, the inherited `os.Environ()`, whether `git clone`
succeeds (with its error text otherwise), the combined output and error
of `git describe`, the `wasm_exec.js` contents found by `loadWASM` (none
when the file is missing), whether `os.ReadDir` succeeds, the directory
entry names it yields, and the per-entry outcome of `go build` together
with the bytes later read back from `tmp/bin/<pkg>.wasm`.  File writes,
directory creation and `git add` are modelled as always succeeding; every
failure a claim mentions is covered by an oracle. -/
structure World where
  tmp : String
  environ : List String
  cloneOk : Bool
  cloneErr : String
  revOut : String
  revErr : Option String
  wasmJs : Option String
  wasmErr : String
  readDirOk : Bool
  readDirErr : String
  pkgs : List String
  buildOk : String → Bool
  buildErr : String → String
  wasmBin : String → String

/-- result of a run: the trace of external effects, the fatal message when
the run ended in `log.Fatalf` (which calls `os.Exit`, so nothing after it
happens, deferred cleanup included), and the content written to the
top-level `index.html` when the run reached it. -/
structure RunResult where
  events : List Event
  fatal : Option String
  index : Option String

/-- `fetchRevision` of main.go: `git describe --tags --always` in `dir`,
returning `strings.TrimSpace(string(out))` together with the error. -/
def fetchRevision (w : World) : String × Option String :=
  (trimSpace w.revOut, w.revErr)

/-- the child environment list built in the loop body: the three target
variables, then the inherited environment appended after them
(`cmd.Env = append(cmd.Env, os.Environ()...)`). -/
def compileEnv (w : World) : List String :=
  ["GOBIN=" ++ w.tmp ++ "/bin", "GOOS=js", "GOARCH=wasm"] ++ w.environ

/-- the compile invocation for directory entry `d`. -/
def compileEvent (w : World) (d : String) : Event :=
  Event.compile (filepathBase (exampleName d)) (exampleName d)
    (w.tmp ++ "/p5") (compileEnv w)

/-- the full event block the loop body emits for a non-excluded entry `d`
whose build succeeds: compile, create the destination directory, write the
wrapper page, copy the artifact, stage it. -/
def exampleEvents (w : World) (d : String) : List Event :=
  [compileEvent w d,
   Event.mkdirAll (exampleName d),
   Event.writeFile (pagePath (exampleName d))
     (indexHTMLStr (titleOf (filepathBase (exampleName d)))
       (srcOf (filepathBase (exampleName d)))),
   Event.writeFile (wasmPath (exampleName d) (filepathBase (exampleName d)))
     (w.wasmBin (filepathBase (exampleName d))),
   Event.gitAdd (wasmPath (exampleName d) (filepathBase (exampleName d)))]

/-- the per-example loop of `gen`: for each entry, skip it when excluded,
otherwise compile (aborting the whole run fatally when the build fails)
and emit the block of per-example effects, appending the entry's list item
to the index accumulator. -/
def genLoop (w : World) (ds : List String) (acc : String) :
    List Event × Except String String :=
  match ds with
  | [] => ([], Except.ok acc)
  | d :: rest =>
    if excludes.contains d then genLoop w rest acc
    else if w.buildOk d then
      let r := genLoop w rest (acc ++ liOf d)
      (exampleEvents w d ++ r.1, r.2)
    else
      ([compileEvent w d],
       Except.error ("could not build WASM " ++ goQuote (exampleName d) ++ ": " ++
         w.buildErr d))

/-- events every loop-reaching run emits before the loop: clone, revision
query, `assets` creation and the bootstrap-script write. -/
def preEvents (w : World) (vers : String) (js : String) : List Event :=
  [Event.gitClone vers "https://github.com/go-p5/p5" w.tmp,
   Event.gitDescribe (w.tmp ++ "/p5"),
   Event.mkdirAll "assets",
   Event.writeFile "assets/wasm_exec.js" js]

/-- the fatal message of the revision-query failure branch:
`log.Fatalf("could not retrieve git revision:\n%s\nerr: %+v", revision, err)`
where `revision` is the already-trimmed combined output. -/
def revFatalMsg (revision err : String) : String :=
  "could not retrieve git revision:\n" ++ revision ++ "\nerr: " ++ err

/-- `gen(vers)` of main.go as a pure function over the oracles: clone,
resolve the revision, load and publish the bootstrap script, enumerate the
example directory, run the per-example loop, then write the index page and
remove the temporary directory.  Each failing step produces its
`log.Fatalf` message and ends the run at once. -/
def gen (w : World) (vers : String) : RunResult :=
  let eClone := [Event.gitClone vers "https://github.com/go-p5/p5" w.tmp]
  if w.cloneOk then
    let rev := fetchRevision w
    let eRev := eClone ++ [Event.gitDescribe (w.tmp ++ "/p5")]
    match rev.2 with
    | some err =>
      { events := eRev, fatal := some (revFatalMsg rev.1 err), index := none }
    | none =>
      match w.wasmJs with
      | none =>
        { events := eRev,
          fatal := some ("could not find WASM bootstrap code: " ++ w.wasmErr),
          index := none }
      | some js =>
        let ePre := preEvents w vers js
        if w.readDirOk then
          match genLoop w w.pkgs (rootHeaderStr rev.1) with
          | (evs, Except.error msg) =>
            { events := ePre ++ evs, fatal := some msg, index := none }
          | (evs, Except.ok root) =>
            { events := ePre ++ evs ++
                [Event.writeFile "index.html" (root ++ rootFooter),
                 Event.removeAll w.tmp],
              fatal := none,
              index := some (root ++ rootFooter) }
        else
          { events := ePre, fatal := some ("could not read dir: " ++ w.readDirErr),
            index := none }
  else
    { events := eClone,
      fatal := some ("could not initialize module: " ++ w.cloneErr),
      index := none }

/- ---------------------------------------------------------------------
   Predicates over traces used by the claims.
--------------------------------------------------------------------- -/

/-- is `e` the compile invocation for directory entry `d`? -/
def isCompileFor (d : String) (e : Event) : Bool :=
  match e with
  | Event.compile _ name _ _ => name == exampleName d
  | _ => false

/-- the paths outside the temporary directory that an event creates or
overwrites (`gitClone` and `compile` write only under the temp dir, and
`gitAdd` only marks an existing file for commit). -/
def writesOf (e : Event) : List String :=
  match e with
  | Event.writeFile p _ => [p]
  | Event.mkdirAll p => [p]
  | _ => []

/-- the declared outputs of a run over directory listing `ds`: the assets
directory and bootstrap script, the top-level index page, and each
non-excluded example's directory, wrapper page and copied artifact. -/
def allowedPath (ds : List String) (p : String) : Prop :=
  p = "assets" ∨ p = "assets/wasm_exec.js" ∨ p = "index.html" ∨
    ∃ d, d ∈ survivors ds ∧
      (p = exampleName d ∨ p = pagePath (exampleName d) ∨
       p = wasmPath (exampleName d) (filepathBase (exampleName d)))

/-- a well-formed directory-entry name, as `os.ReadDir` yields them:
non-empty and containing no path separator. -/
def goodDirName (d : String) : Prop :=
  d ≠ "" ∧ '/' ∉ d.data

/-- alphabet of the go-p5/p5 example directory names: ASCII lower-case
letters, digits, hyphen and underscore. -/
def goodChar (c : Char) : Bool :=
  (97 ≤ c.toNat && c.toNat ≤ 122) || (48 ≤ c.toNat && c.toNat ≤ 57) ||
    c.toNat == 45 || c.toNat == 95

/-- straddle-freedom of a pattern `p` along a segmented concatenation:
no occurrence of `p` crosses the boundary after any segment. -/
def noStraddleFlat (p : List Char) : List (List Char) → Prop
  | [] => True
  | x :: rest => noStraddle p x (rest.foldr (· ++ ·) []) ∧ noStraddleFlat p rest

/- ---------------------------------------------------------------------
   Concrete worlds used by closed evaluations.
--------------------------------------------------------------------- -/

/-- a fully successful world: clone, revision query, bootstrap load and
directory read all succeed, every build succeeds, and the example folder
holds `a`, `b` and the excluded `sketch`. -/
def baseWorld : World :=
  { tmp := "/tmp/go-p5-gen-1"
    environ := ["HOME=/home/u", "PATH=/usr/bin"]
    cloneOk := true
    cloneErr := ""
    revOut := "v0.14.0\n"
    revErr := none
    wasmJs := some "// wasm bootstrap"
    wasmErr := ""
    readDirOk := true
    readDirErr := ""
    pkgs := ["a", "b", "sketch"]
    buildOk := fun _ => true
    buildErr := fun _ => "exit status 1"
    wasmBin := fun _ => "wasm-bytes" }

/-- world whose inherited environment already binds GOOS. -/
def goosWorld : World :=
  { baseWorld with environ := ["GOOS=linux"], pkgs := ["a"] }

/-- world in which the build of example `b` fails. -/
def failBWorld : World :=
  { baseWorld with pkgs := ["a", "b", "c"], buildOk := fun d => !(d == "b") }

/-- world in which the revision query errors, with whitespace around its
combined output. -/
def revErrWorld : World :=
  { baseWorld with revOut := " x ", revErr := some "exit status 128" }

/-- successful world whose example folder holds only excluded entries. -/
def onlyExcludedWorld : World :=
  { baseWorld with pkgs := ["sketch"] }

/- ---------------------------------------------------------------------
   Theorems.  First, the generic facts about `countOccs`.
--------------------------------------------------------------------- -/

theorem occAt_iff (p s : List Char) (i : Nat) :
    occAt p s i = true ↔ p <+: s.drop i := by
  simp [occAt]

theorem countOccs_nil (p : List Char) (hp : p ≠ []) : countOccs p [] = 0 := by
  cases p with
  | nil => exact absurd rfl hp
  | cons c t => simp [countOccs, occAt, List.isPrefixOf]

theorem countOccs_cons (p : List Char) (d : Char) (s : List Char) :
    countOccs p (d :: s) = (if p <+: (d :: s) then 1 else 0) + countOccs p s := by
  show (if p.isPrefixOf (d :: s) = true then 1 else 0) + countOccs p s = _
  simp only [List.isPrefixOf_iff_prefix]

theorem countOccs_eq_countP (p : List Char) (s : List Char) :
    countOccs p s = (List.range (s.length + 1)).countP (occAt p s) := by
  induction s with
  | nil =>
    have hr : List.range (([] : List Char).length + 1) = [0] := rfl
    rw [hr]
    cases p with
    | nil => simp [countOccs, occAt, List.isPrefixOf, List.countP_cons, List.countP_nil]
    | cons c t => simp [countOccs, occAt, List.isPrefixOf, List.countP_cons, List.countP_nil]
  | cons d s ih =>
    have h1 : occAt p (d :: s) ∘ Nat.succ = occAt p s := by
      funext i; rfl
    rw [countOccs_cons, ih]
    conv_rhs => rw [List.length_cons, List.range_succ_eq_map, List.countP_cons,
      List.countP_map, h1]
    by_cases h : p <+: (d :: s)
    · have hb : occAt p (d :: s) 0 = true := by
        rw [occAt_iff]
        simpa using h
      simp [h, hb, Nat.add_comm]
    · have hb : occAt p (d :: s) 0 = false := by
        rw [← Bool.not_eq_true, occAt_iff]
        simpa using h
      simp [h, hb]

theorem countOccs_le_split (p u a v s : List Char) (h : p = u ++ a ++ v) :
    countOccs p s ≤ countOccs a s := by
  classical
  rw [countOccs_eq_countP, countOccs_eq_countP]
  rw [List.countP_eq_length_filter, List.countP_eq_length_filter]
  set L1 := (List.range (s.length + 1)).filter (occAt p s) with hL1
  set L2 := (List.range (s.length + 1)).filter (occAt a s) with hL2
  have hsub : (L1.map (· + u.length)) ⊆ L2 := by
    intro j hj
    rcases List.mem_map.mp hj with ⟨i, hi, rfl⟩
    rcases List.mem_filter.mp hi with ⟨hirange, hocc⟩
    have hpre : p <+: s.drop i := (occAt_iff p s i).mp hocc
    rcases hpre with ⟨r, hr⟩
    have hplen : p.length = u.length + (a.length + v.length) := by
      rw [h]; simp [List.length_append, Nat.add_assoc]
    have hdrop : s.drop (i + u.length) = a ++ (v ++ r) := by
      calc s.drop (i + u.length)
          = (s.drop i).drop u.length := (List.drop_drop u.length i s).symm
        _ = (u ++ (a ++ (v ++ r))).drop u.length := by
            rw [← hr, h]; simp [List.append_assoc]
        _ = a ++ (v ++ r) := List.drop_left u (a ++ (v ++ r))
    have hocc2 : occAt a s (i + u.length) = true := by
      rw [occAt_iff, hdrop]
      exact List.prefix_append a (v ++ r)
    have hlen : i + u.length < s.length + 1 := by
      have h3 : p.length ≤ (s.drop i).length := by
        rw [← hr]; simp
      have h5 : i < s.length + 1 := List.mem_range.mp hirange
      rw [List.length_drop] at h3
      omega
    exact List.mem_filter.mpr ⟨List.mem_range.mpr hlen, hocc2⟩
  have hnd : (L1.map (· + u.length)).Nodup := by
    have : L1.Nodup := (List.nodup_range _).filter _
    exact this.map (fun i j hij => by omega)
  have hle := (List.subperm_of_subset hnd hsub).length_le
  rw [List.length_map] at hle
  exact hle

theorem countOccs_single (c : Char) (s : List Char) :
    countOccs [c] s = s.count c := by
  induction s with
  | nil => simp [countOccs_nil [c] (by simp)]
  | cons d s ih =>
    rw [countOccs_cons, ih, List.count_cons]
    by_cases h : c = d
    · subst h
      have h1 : [c] <+: c :: s := ⟨s, rfl⟩
      rw [if_pos h1]
      simp
      omega
    · have h2 : ¬ ([c] <+: d :: s) := by
        intro hc
        exact h (List.cons_prefix_cons.mp hc).1
      have h3 : (d == c) = false := by
        simp only [beq_eq_false_iff_ne]
        exact fun hdc => h hdc.symm
      rw [if_neg h2, h3]
      simp

theorem countOccs_le_count (p s : List Char) (c : Char) (hc : c ∈ p) :
    countOccs p s ≤ s.count c := by
  rcases List.append_of_mem hc with ⟨u, v, huv⟩
  have h := countOccs_le_split p u [c] v s (by simpa using huv)
  rw [countOccs_single] at h
  exact h

theorem countOccs_eq_zero_of_not_mem (p s : List Char) (c : Char)
    (hc : c ∈ p) (hs : c ∉ s) : countOccs p s = 0 :=
  Nat.le_zero.mp (List.count_eq_zero_of_not_mem hs ▸ countOccs_le_count p s c hc)

theorem countOccs_eq_zero_of_short (p s : List Char) (h : s.length < p.length) :
    countOccs p s = 0 := by
  rw [countOccs_eq_countP, List.countP_eq_zero]
  intro i _ hocc
  have hpre : p <+: s.drop i := (occAt_iff p s i).mp hocc
  have := hpre.length_le
  rw [List.length_drop] at this
  omega

theorem one_le_countOccs (p x y s : List Char) (h : s = x ++ p ++ y) :
    1 ≤ countOccs p s := by
  rw [countOccs_eq_countP]
  refine List.countP_pos_iff.mpr ⟨x.length, List.mem_range.mpr ?_, ?_⟩
  · have hx : x <+: s := by
      rw [h, List.append_assoc]
      exact List.prefix_append x (p ++ y)
    exact Nat.lt_succ_of_le hx.length_le
  · rw [occAt_iff, h, List.append_assoc, List.drop_left]
    exact List.prefix_append p y

theorem prefix_head_eq {l₁ l₂ : List Char} (h : l₁ <+: l₂) (hne : l₁ ≠ []) :
    l₂.head? = l₁.head? := by
  rcases h with ⟨t, rfl⟩
  cases l₁ with
  | nil => exact absurd rfl hne
  | cons a l => rfl

theorem head_append_of_ne_nil {l r : List Char} (h : l ≠ []) :
    (l ++ r).head? = l.head? := by
  cases l with
  | nil => exact absurd rfl h
  | cons a t => rfl

theorem noStraddle_of_allTake (p x y : List Char)
    (h : (List.range p.length).all
      (fun k => k == 0 || !((p.take k).isSuffixOf x)) = true) :
    noStraddle p x y := by
  intro k hk1 hk2 hc
  have h1 := List.all_eq_true.mp h k (List.mem_range.mpr hk2)
  rcases Bool.or_eq_true_iff.mp h1 with h2 | h2
  · have : k = 0 := by simpa using h2
    omega
  · have h3 : (p.take k).isSuffixOf x = false := by
      simpa using h2
    have h4 : (p.take k).isSuffixOf x = true := List.isSuffixOf_iff_suffix.mpr hc.1
    rw [h4] at h3
    cases h3

theorem noStraddle_of_allDrop (p x y : List Char)
    (h : (List.range p.length).all
      (fun k => k == 0 || !((p.drop k).isPrefixOf y)) = true) :
    noStraddle p x y := by
  intro k hk1 hk2 hc
  have h1 := List.all_eq_true.mp h k (List.mem_range.mpr hk2)
  rcases Bool.or_eq_true_iff.mp h1 with h2 | h2
  · have : k = 0 := by simpa using h2
    omega
  · have h3 : (p.drop k).isPrefixOf y = false := by
      simpa using h2
    have h4 : (p.drop k).isPrefixOf y = true := List.isPrefixOf_iff_prefix.mpr hc.2
    rw [h4] at h3
    cases h3

theorem noStraddle_of_headNe (p x y : List Char) (c : Char)
    (hy : y.head? = some c)
    (h : (List.range p.length).all
      (fun k => k == 0 || ((p.drop k).head? != some c)) = true) :
    noStraddle p x y := by
  intro k hk1 hk2 hc
  have h1 := List.all_eq_true.mp h k (List.mem_range.mpr hk2)
  rcases Bool.or_eq_true_iff.mp h1 with h2 | h2
  · have : k = 0 := by simpa using h2
    omega
  · have h3 : (p.drop k).head? ≠ some c := by
      simpa using h2
    have hne : p.drop k ≠ [] := by
      intro hnil
      have := congrArg List.length hnil
      rw [List.length_drop] at this
      simp at this
      omega
    have h4 := prefix_head_eq hc.2 hne
    rw [hy] at h4
    exact h3 h4.symm

theorem noStraddle_of_head_notMem (p x y : List Char) (c : Char)
    (hp : p.head? = some c) (hx : c ∉ x) : noStraddle p x y := by
  intro k hk1 hk2 hc
  have hcmem : c ∈ p.take k := by
    cases p with
    | nil => simp at hp
    | cons a t =>
      have ha : a = c := by simpa using hp
      cases k with
      | zero => omega
      | succ k => simp [List.take, ha]
  exact hx (hc.1.subset hcmem)

theorem countOccs_append (p x y : List Char) (hp : p ≠ [])
    (h : noStraddle p x y) :
    countOccs p (x ++ y) = countOccs p x + countOccs p y := by
  induction x with
  | nil => simp [countOccs_nil p hp]
  | cons d x ih =>
    have hns : noStraddle p x y := by
      intro k hk1 hk2 hc
      exact h k hk1 hk2 ⟨hc.1.trans (List.suffix_cons d x), hc.2⟩
    rw [List.cons_append, countOccs_cons, countOccs_cons, ih hns]
    have hb : (p <+: d :: (x ++ y)) ↔ (p <+: d :: x) := by
      constructor
      · intro hpre
        by_cases hl : p.length ≤ (d :: x).length
        · have h1 := List.prefix_iff_eq_take.mp hpre
          rw [show d :: (x ++ y) = (d :: x) ++ y from rfl] at h1
          rw [List.take_append_of_le_length hl] at h1
          rw [h1]
          exact List.take_prefix p.length (d :: x)
        · exfalso
          push_neg at hl
          have h1 := List.prefix_iff_eq_take.mp hpre
          rw [show d :: (x ++ y) = (d :: x) ++ y from rfl] at h1
          apply h (d :: x).length (by simp) hl
      
          constructor
          · have h2 : p.take (d :: x).length = d :: x := by
              conv_lhs => rw [h1]
              rw [List.take_take, Nat.min_eq_left (Nat.le_of_lt hl)]
              exact List.take_left (d :: x) y
            rw [h2]
          · have h3 : p.drop (d :: x).length = y.take (p.length - (d :: x).length) := by
              conv_lhs => rw [h1]
              rw [List.drop_take, List.drop_left]
            rw [h3]
            exact List.take_prefix _ y
      · intro hpre
        have := hpre.trans (List.prefix_append (d :: x) y)
        simpa using this
    rw [if_congr hb rfl rfl]
    omega

theorem noStraddle_nil_left (p y : List Char) : noStraddle p [] y := by
  intro k hk1 hk2 hc
  have h1 := hc.1.length_le
  rw [List.length_take, List.length_nil] at h1
  omega

theorem countOccs_flat (p : List Char) (hp : p ≠ []) :
    ∀ segs : List (List Char), noStraddleFlat p segs →
      countOccs p (segs.foldr (· ++ ·) []) = (segs.map (countOccs p)).sum := by
  intro segs
  induction segs with
  | nil =>
    intro _
    simp [countOccs_nil p hp]
  | cons x rest ih =>
    intro h
    rw [List.foldr_cons, countOccs_append p x _ hp h.1, ih h.2]
    simp

theorem not_mem_of_goodChar (pkg : String) (c : Char)
    (hp : ∀ d ∈ pkg.data, goodChar d = true) (hc : goodChar c = false) :
    c ∉ pkg.data := by
  intro hmem
  rw [hp c hmem] at hc
  cases hc

theorem page_decomp (pkg : String) :
    (indexHTMLStr (titleOf pkg) (srcOf pkg)).data =
      ([indexHTMLa.data, "Go-P5: ".data, pkg.data, indexHTMLb.data,
        "https://go-p5.github.io/example/".data, pkg.data, "/".data, pkg.data,
        ".wasm".data, indexHTMLc.data] : List (List Char)).foldr (· ++ ·) [] := by
  simp [indexHTMLStr, titleOf, srcOf, List.append_assoc]

theorem anchor_count (pkg : String) (hdot : '.' ∉ pkg.data) :
    countOccs ".io/example/".data
      (indexHTMLStr (titleOf pkg) (srcOf pkg)).data = 1 := by
  have hflat : noStraddleFlat ".io/example/".data
      [indexHTMLa.data, "Go-P5: ".data, pkg.data, indexHTMLb.data,
       "https://go-p5.github.io/example/".data, pkg.data, "/".data, pkg.data,
       ".wasm".data, indexHTMLc.data] := by
    simp only [noStraddleFlat, List.foldr_cons, List.foldr_nil]
    refine ⟨?_, ?_, ?_, ?_, ?_, ?_, ?_, ?_, ?_, ?_, trivial⟩
    · exact noStraddle_of_allTake _ _ _ (by decide)
    · exact noStraddle_of_allTake _ _ _ (by decide)
    · exact noStraddle_of_head_notMem _ _ _ '.' (by decide) hdot
    · exact noStraddle_of_allTake _ _ _ (by decide)
    · exact noStraddle_of_allTake _ _ _ (by decide)
    · exact noStraddle_of_head_notMem _ _ _ '.' (by decide) hdot
    · exact noStraddle_of_allTake _ _ _ (by decide)
    · exact noStraddle_of_head_notMem _ _ _ '.' (by decide) hdot
    · exact noStraddle_of_allTake _ _ _ (by decide)
    · exact noStraddle_of_allDrop _ _ _ (by decide)
  rw [page_decomp, countOccs_flat _ (by decide) _ hflat]
  have hpkg : countOccs ".io/example/".data pkg.data = 0 :=
    countOccs_eq_zero_of_not_mem _ _ '.' (by decide) hdot
  have e0 : countOccs ".io/example/".data indexHTMLa.data = 0 := by decide
  have e1 : countOccs ".io/example/".data "Go-P5: ".data = 0 := by decide
  have e3 : countOccs ".io/example/".data indexHTMLb.data = 0 := by decide
  have e4 : countOccs ".io/example/".data
      "https://go-p5.github.io/example/".data = 1 := by decide
  have e6 : countOccs ".io/example/".data "/".data = 0 := by decide
  have e8 : countOccs ".io/example/".data ".wasm".data = 0 := by decide
  have e9 : countOccs ".io/example/".data indexHTMLc.data = 0 := by decide
  simp [e0, e1, e3, e4, e6, e8, e9, hpkg]

theorem title_split (pkg : String) :
    (titleOf pkg).data = "Go-".data ++ ['P'] ++ ("5: ".data ++ pkg.data) := by
  have hGo : "Go-P5: ".data = "Go-".data ++ ('P' :: "5: ".data) := by decide
  calc (titleOf pkg).data
      = "Go-P5: ".data ++ pkg.data := by simp [titleOf]
    _ = ("Go-".data ++ ('P' :: "5: ".data)) ++ pkg.data := by rw [hGo]
    _ = "Go-".data ++ ['P'] ++ ("5: ".data ++ pkg.data) := by
        simp [List.append_assoc]

theorem pageP_count (pkg : String) (hP : 'P' ∉ pkg.data) :
    ((indexHTMLStr (titleOf pkg) (srcOf pkg)).data).count 'P' = 1 := by
  rw [page_decomp]
  simp only [List.foldr_cons, List.foldr_nil, List.count_append]
  have c0 : indexHTMLa.data.count 'P' = 0 := by decide
  have c1 : ("Go-P5: ".data).count 'P' = 1 := by decide
  have c3 : indexHTMLb.data.count 'P' = 0 := by decide
  have c4 : ("https://go-p5.github.io/example/".data).count 'P' = 0 := by decide
  have c6 : ("/".data).count 'P' = 0 := by decide
  have c8 : (".wasm".data).count 'P' = 0 := by decide
  have c9 : indexHTMLc.data.count 'P' = 0 := by decide
  have cp : pkg.data.count 'P' = 0 := List.count_eq_zero.mpr hP
  simp [c0, c1, c3, c4, c6, c8, c9, cp]

theorem title_count (pkg : String) (hP : 'P' ∉ pkg.data) :
    countOccs (titleOf pkg).data
      (indexHTMLStr (titleOf pkg) (srcOf pkg)).data = 1 := by
  have hle := countOccs_le_split (titleOf pkg).data "Go-".data ['P']
    ("5: ".data ++ pkg.data) (indexHTMLStr (titleOf pkg) (srcOf pkg)).data
    (title_split pkg)
  rw [countOccs_single, pageP_count pkg hP] at hle
  have hge : 1 ≤ countOccs (titleOf pkg).data
      (indexHTMLStr (titleOf pkg) (srcOf pkg)).data := by
    apply one_le_countOccs _ indexHTMLa.data
      ((indexHTMLb ++ srcOf pkg ++ indexHTMLc).data)
    simp [indexHTMLStr, List.append_assoc]
  omega

theorem src_count (pkg : String) (hdot : '.' ∉ pkg.data) :
    countOccs (srcOf pkg).data
      (indexHTMLStr (titleOf pkg) (srcOf pkg)).data = 1 := by
  have hsplit : (srcOf pkg).data =
      "https://go-p5.github".data ++ ".io/example/".data ++
        (pkg.data ++ ("/".data ++ (pkg.data ++ ".wasm".data))) := by
    have hU : "https://go-p5.github.io/example/".data =
        "https://go-p5.github".data ++ ".io/example/".data := by decide
    calc (srcOf pkg).data
        = "https://go-p5.github.io/example/".data ++
            (pkg.data ++ ("/".data ++ (pkg.data ++ ".wasm".data))) := by
          simp [srcOf, List.append_assoc]
      _ = _ := by rw [hU]; try simp [List.append_assoc]
  have hle := countOccs_le_split (srcOf pkg).data "https://go-p5.github".data
    ".io/example/".data (pkg.data ++ ("/".data ++ (pkg.data ++ ".wasm".data)))
    (indexHTMLStr (titleOf pkg) (srcOf pkg)).data hsplit
  rw [anchor_count pkg hdot] at hle
  have hge : 1 ≤ countOccs (srcOf pkg).data
      (indexHTMLStr (titleOf pkg) (srcOf pkg)).data := by
    apply one_le_countOccs _ ((indexHTMLa ++ titleOf pkg ++ indexHTMLb).data)
      (indexHTMLc.data)
    simp [indexHTMLStr, List.append_assoc]
  omega

theorem placeholder_count (pkg : String) (hpc : '%' ∉ pkg.data) :
    countOccs "%s".data (indexHTMLStr (titleOf pkg) (srcOf pkg)).data = 0 := by
  have hle := countOccs_le_count "%s".data
    (indexHTMLStr (titleOf pkg) (srcOf pkg)).data '%' (by decide)
  have hcount : ((indexHTMLStr (titleOf pkg) (srcOf pkg)).data).count '%' = 0 := by
    rw [page_decomp]
    simp only [List.foldr_cons, List.foldr_nil, List.count_append]
    have c0 : indexHTMLa.data.count '%' = 0 := by decide
    have c1 : ("Go-P5: ".data).count '%' = 0 := by decide
    have c3 : indexHTMLb.data.count '%' = 0 := by decide
    have c4 : ("https://go-p5.github.io/example/".data).count '%' = 0 := by decide
    have c6 : ("/".data).count '%' = 0 := by decide
    have c8 : (".wasm".data).count '%' = 0 := by decide
    have c9 : indexHTMLc.data.count '%' = 0 := by decide
    have cp : pkg.data.count '%' = 0 := List.count_eq_zero.mpr hpc
    simp [c0, c1, c3, c4, c6, c8, c9, cp]
  omega

/-- C6: for every generated per-example HTML wrapper page (the example
name drawn from the example-directory alphabet of lower-case letters,
digits, hyphen and underscore), the output contains exactly one occurrence
of the supplied page title, exactly one occurrence of the supplied
artifact URL, and no `%` format placeholder remains unsubstituted. -/
theorem c6_page_substitutions (pkg : String)
    (hp : ∀ c ∈ pkg.data, goodChar c = true) :
    countSubstr (indexHTMLStr (titleOf pkg) (srcOf pkg)) (titleOf pkg) = 1 ∧
    countSubstr (indexHTMLStr (titleOf pkg) (srcOf pkg)) (srcOf pkg) = 1 ∧
    countSubstr (indexHTMLStr (titleOf pkg) (srcOf pkg)) "%s" = 0 := by
  refine ⟨?_, ?_, ?_⟩
  · exact title_count pkg (not_mem_of_goodChar pkg 'P' hp (by decide))
  · exact src_count pkg (not_mem_of_goodChar pkg '.' hp (by decide))
  · exact placeholder_count pkg (not_mem_of_goodChar pkg '%' hp (by decide))

/-- witness for C6 at the concrete example name `arith`. -/
theorem c6_page_substitutions_witness :
    (∀ c ∈ ("arith" : String).data, goodChar c = true) ∧
    (countSubstr (indexHTMLStr (titleOf "arith") (srcOf "arith")) (titleOf "arith") = 1 ∧
     countSubstr (indexHTMLStr (titleOf "arith") (srcOf "arith")) (srcOf "arith") = 1 ∧
     countSubstr (indexHTMLStr (titleOf "arith") (srcOf "arith")) "%s" = 0) :=
  ⟨by decide, c6_page_substitutions "arith" (by decide)⟩

/- ---------------------------------------------------------------------
   Helper facts about the path strings the run builds.
--------------------------------------------------------------------- -/

theorem strAppend_left_cancel {a b c : String} (h : a ++ b = a ++ c) : b = c := by
  apply String.ext
  have h1 := congrArg String.data h
  simp only [String.data_append, List.append_cancel_left_eq] at h1
  exact h1

theorem strAppend_right_cancel {a b c : String} (h : a ++ c = b ++ c) : a = b := by
  apply String.ext
  have h1 := congrArg String.data h
  simp only [String.data_append, List.append_cancel_right_eq] at h1
  exact h1

theorem takeWhile_append_of (p : Char → Bool) (xs : List Char) (y : Char)
    (ys : List Char) (hx : ∀ x ∈ xs, p x = true) (hy : p y = false) :
    (xs ++ y :: ys).takeWhile p = xs := by
  induction xs with
  | nil => simp [List.takeWhile_cons, hy]
  | cons x xs ih =>
    rw [List.cons_append, List.takeWhile_cons, hx x (List.mem_cons_self x xs)]
    rw [ih (fun z hz => hx z (List.mem_cons_of_mem x hz))]
    simp

theorem base_exampleName (d : String) (hd : goodDirName d) :
    filepathBase (exampleName d) = d := by
  obtain ⟨hne, hslash⟩ := hd
  have hdata : d.data ≠ [] := by
    intro h0
    exact hne (String.ext h0)
  obtain ⟨c, rest, hcr⟩ : ∃ c rest, d.data.reverse = c :: rest := by
    cases hrev : d.data.reverse with
    | nil =>
      exfalso
      apply hdata
      have := congrArg List.reverse hrev
      simpa using this
    | cons c rest => exact ⟨c, rest, rfl⟩
  have hrevmem : ∀ x ∈ d.data.reverse, (x != '/') = true := by
    intro x hx
    have hxmem : x ∈ d.data := by simpa using hx
    simp only [bne_iff_ne, ne_eq]
    intro h0
    exact hslash (h0 ▸ hxmem)
  have hrdata : (exampleName d).data.reverse =
      d.data.reverse ++ ('/' :: "example".data.reverse) := by
    have h1 : (exampleName d).data = "example/".data ++ d.data := by
      simp [exampleName]
    rw [h1, List.reverse_append]
    have h2 : ("example/".data).reverse = '/' :: "example".data.reverse := by decide
    rw [h2]
  have hnotempty : exampleName d ≠ "" := by
    intro h0
    have h1 := congrArg String.data h0
    simp only [exampleName, String.data_append] at h1
    have h2 := congrArg List.length h1
    simp [List.length_append] at h2
  have hdropWhile : (exampleName d).data.reverse.dropWhile (fun c => c == '/') =
      d.data.reverse ++ ('/' :: "example".data.reverse) := by
    rw [hrdata, hcr, List.cons_append, List.dropWhile_cons]
    have hc : (c == '/') = false := by
      have := hrevmem c (by rw [hcr]; exact List.mem_cons_self c rest)
      simpa [bne_iff_ne, beq_eq_false_iff_ne] using this
    rw [hc]
    simp
  unfold filepathBase
  rw [if_neg hnotempty, hdropWhile]
  rw [if_neg (by simp)]
  have htake : ((d.data.reverse ++ ('/' :: "example".data.reverse)).takeWhile
      (fun c => c != '/')) = d.data.reverse :=
    takeWhile_append_of _ _ _ _ hrevmem (by decide)
  rw [List.reverse_reverse, htake, List.reverse_reverse]

theorem contains_false_iff (d : String) :
    (excludes.contains d = false) ↔ d ∉ excludes := by
  simp

theorem genLoop_all_ok (w : World) (ds : List String)
    (h : ∀ d ∈ ds, excludes.contains d = false → w.buildOk d = true) :
    ∀ acc, genLoop w ds acc =
      ((survivors ds).flatMap (exampleEvents w),
       Except.ok (acc ++ liAll ds)) := by
  induction ds with
  | nil =>
    intro acc
    simp [genLoop, survivors, liAll, concatAll]
  | cons d rest ih =>
    intro acc
    have hrest : ∀ x ∈ rest, excludes.contains x = false → w.buildOk x = true :=
      fun x hx hbx => h x (List.mem_cons_of_mem d hx) hbx
    by_cases hd : excludes.contains d = true
    · have hdm : d ∈ excludes := by simpa using hd
      rw [genLoop, if_pos hd, ih hrest]
      have hs : survivors (d :: rest) = survivors rest := by
        simp [survivors, List.filter_cons, hdm]
      have hl : liAll (d :: rest) = liAll rest := by
        simp [liAll, survivors, List.filter_cons, hdm]
      rw [hs, hl]
    · have hdf : excludes.contains d = false := by
        cases hcd : excludes.contains d
        · rfl
        · exact absurd hcd hd
      have hdm : d ∉ excludes := by simpa using hdf
      have hb : w.buildOk d = true := h d (List.mem_cons_self d rest) hdf
      rw [genLoop, if_neg hd, if_pos hb, ih hrest]
      have hs : survivors (d :: rest) = d :: survivors rest := by
        simp [survivors, List.filter_cons, hdm]
      have hl : liAll (d :: rest) = liOf d ++ liAll rest := by
        simp [liAll, survivors, List.filter_cons, hdm, concatAll]
      rw [hs, hl, List.flatMap_cons]
      rw [String.append_assoc]

theorem genLoop_fails (w : World) (xs : List String) (d : String)
    (ys : List String)
    (hxs : ∀ x ∈ xs, excludes.contains x = false → w.buildOk x = true)
    (hd : excludes.contains d = false) (hb : w.buildOk d = false) :
    ∀ acc, genLoop w (xs ++ d :: ys) acc =
      ((survivors xs).flatMap (exampleEvents w) ++ [compileEvent w d],
       Except.error ("could not build WASM " ++ goQuote (exampleName d) ++ ": " ++
         w.buildErr d)) := by
  induction xs with
  | nil =>
    intro acc
    rw [List.nil_append, genLoop, if_neg (by rw [hd]; exact Bool.false_ne_true),
      if_neg (by rw [hb]; exact Bool.false_ne_true)]
    simp [survivors]
  | cons x xs ih =>
    intro acc
    have hxs' : ∀ z ∈ xs, excludes.contains z = false → w.buildOk z = true :=
      fun z hz hbz => hxs z (List.mem_cons_of_mem x hz) hbz
    rw [List.cons_append, genLoop]
    by_cases hx : excludes.contains x = true
    · have hxm : x ∈ excludes := by simpa using hx
      rw [if_pos hx, ih hxs']
      have hs : survivors (x :: xs) = survivors xs := by
        simp [survivors, List.filter_cons, hxm]
      rw [hs]
    · have hxf : excludes.contains x = false := by
        cases hcx : excludes.contains x
        · rfl
        · exact absurd hcx hx
      have hxm : x ∉ excludes := by simpa using hxf
      have hbx : w.buildOk x = true := hxs x (List.mem_cons_self x xs) hxf
      rw [if_neg hx, if_pos hbx, ih hxs']
      have hs : survivors (x :: xs) = x :: survivors xs := by
        simp [survivors, List.filter_cons, hxm]
      rw [hs, List.flatMap_cons]
      simp [List.append_assoc]

theorem genLoop_ok_builds (w : World) (ds : List String) :
    ∀ acc r, (genLoop w ds acc).2 = Except.ok r →
      ∀ d ∈ ds, excludes.contains d = false → w.buildOk d = true := by
  induction ds with
  | nil => simp
  | cons x rest ih =>
    intro acc r hok d hmem hdf
    rw [genLoop] at hok
    by_cases hx : excludes.contains x = true
    · rw [if_pos hx] at hok
      rcases List.mem_cons.mp hmem with rfl | hmem'
      · rw [hx] at hdf
        cases hdf
      · exact ih acc r hok d hmem' hdf
    · rw [if_neg hx] at hok
      by_cases hbx : w.buildOk x = true
      · rw [if_pos hbx] at hok
        rcases List.mem_cons.mp hmem with rfl | hmem'
        · exact hbx
        · exact ih (acc ++ liOf x) r hok d hmem' hdf
      · rw [if_neg hbx] at hok
        simp at hok

theorem gen_success (w : World) (vers : String)
    (h : (gen w vers).fatal = none) :
    w.cloneOk = true ∧ w.revErr = none ∧ w.readDirOk = true ∧
    (∀ d ∈ w.pkgs, excludes.contains d = false → w.buildOk d = true) ∧
    ∃ js, w.wasmJs = some js ∧
      gen w vers =
        { events := preEvents w vers js ++
            (survivors w.pkgs).flatMap (exampleEvents w) ++
            [Event.writeFile "index.html"
              (rootHeaderStr (trimSpace w.revOut) ++ liAll w.pkgs ++ rootFooter),
             Event.removeAll w.tmp],
          fatal := none,
          index := some (rootHeaderStr (trimSpace w.revOut) ++ liAll w.pkgs ++
            rootFooter) } := by
  cases hc : w.cloneOk with
  | false => rw [gen] at h; rw [hc] at h; simp at h
  | true =>
  cases hr : w.revErr with
  | some err => rw [gen] at h; rw [hc, fetchRevision] at h; simp [hr] at h
  | none =>
  cases hj : w.wasmJs with
  | none => rw [gen] at h; rw [hc, fetchRevision] at h; simp [hr, hj] at h
  | some js =>
  cases hrd : w.readDirOk with
  | false => rw [gen] at h; rw [hc, fetchRevision] at h; simp [hr, hj, hrd] at h
  | true =>
  have hbuilds : ∀ d ∈ w.pkgs, excludes.contains d = false → w.buildOk d = true := by
    rcases hgl : genLoop w w.pkgs (rootHeaderStr (trimSpace w.revOut)) with ⟨evs, res⟩
    cases res with
    | error msg =>
      exfalso
      rw [gen] at h
      rw [hc, fetchRevision] at h
      simp only [hr, hj, hrd] at h
      rw [hgl] at h
      simp at h
    | ok root =>
      exact genLoop_ok_builds w w.pkgs (rootHeaderStr (trimSpace w.revOut)) root
        (by rw [hgl]) 
  refine ⟨rfl, rfl, rfl, hbuilds, js, rfl, ?_⟩
  rw [gen]
  rw [hc, fetchRevision]
  simp only [hr, hj, hrd]
  rw [genLoop_all_ok w w.pkgs hbuilds (rootHeaderStr (trimSpace w.revOut))]
  simp [String.append_assoc]
/-- C5: on a fully successful run, the top-level index page is exactly the
header with the resolved revision embedded, followed by one list item per
non-excluded example in enumeration order, followed by the footer; in
particular the resolved revision string occurs in the page. -/
theorem c5_index_page (w : World) (vers : String)
    (h : (gen w vers).fatal = none) :
    (gen w vers).index =
      some (rootHeaderStr (trimSpace w.revOut) ++
        concatAll ((survivors w.pkgs).map liOf) ++ rootFooter) ∧
    1 ≤ countSubstr (rootHeaderStr (trimSpace w.revOut) ++
        concatAll ((survivors w.pkgs).map liOf) ++ rootFooter)
      (trimSpace w.revOut) := by
  obtain ⟨hc, hr, hrd, hb, js, hjs, hform⟩ := gen_success w vers h
  constructor
  · rw [hform]
    rfl
  · show 1 ≤ countOccs (trimSpace w.revOut).data _
    apply one_le_countOccs _ rootHeaderPre.data
      ((rootHeaderSuf ++ concatAll ((survivors w.pkgs).map liOf) ++ rootFooter).data)
    simp [rootHeaderStr, List.append_assoc]

/-- witness for C5 on a concrete fully successful world. -/
theorem c5_index_page_witness :
    (gen baseWorld "main").fatal = none ∧
    ((gen baseWorld "main").index =
      some (rootHeaderStr (trimSpace baseWorld.revOut) ++
        concatAll ((survivors baseWorld.pkgs).map liOf) ++ rootFooter) ∧
     1 ≤ countSubstr (rootHeaderStr (trimSpace baseWorld.revOut) ++
        concatAll ((survivors baseWorld.pkgs).map liOf) ++ rootFooter)
       (trimSpace baseWorld.revOut)) :=
  ⟨by decide, c5_index_page baseWorld "main" (by decide)⟩

/-- C10: when the enumeration yields no non-excluded example, a successful
run still writes the index page: header with the resolved revision, zero
list items, and the footer. -/
theorem c10_empty_index (w : World) (vers : String) (js : String)
    (hc : w.cloneOk = true) (hr : w.revErr = none) (hj : w.wasmJs = some js)
    (hrd : w.readDirOk = true) (hs : survivors w.pkgs = []) :
    (gen w vers).fatal = none ∧
    (gen w vers).index =
      some (rootHeaderStr (trimSpace w.revOut) ++ rootFooter) := by
  have hbuilds : ∀ d ∈ w.pkgs, excludes.contains d = false → w.buildOk d = true := by
    intro d hmem hdf
    exfalso
    have hmem2 : d ∈ survivors w.pkgs := by
      refine List.mem_filter.mpr ⟨hmem, ?_⟩
      rw [hdf]
      rfl
    rw [hs] at hmem2
    cases hmem2
  have hli : liAll w.pkgs = "" := by
    simp [liAll, hs, concatAll]
  rw [gen]
  rw [hc, fetchRevision]
  simp only [hr, hj, hrd]
  rw [genLoop_all_ok w w.pkgs hbuilds (rootHeaderStr (trimSpace w.revOut))]
  rw [hli, String.append_empty]
  exact ⟨rfl, rfl⟩

/-- witness for C10 on a world whose example folder holds only `sketch`. -/
theorem c10_empty_index_witness :
    (onlyExcludedWorld.cloneOk = true ∧ onlyExcludedWorld.revErr = none ∧
     onlyExcludedWorld.wasmJs = some "// wasm bootstrap" ∧
     onlyExcludedWorld.readDirOk = true ∧ survivors onlyExcludedWorld.pkgs = []) ∧
    ((gen onlyExcludedWorld "main").fatal = none ∧
     (gen onlyExcludedWorld "main").index =
       some (rootHeaderStr (trimSpace onlyExcludedWorld.revOut) ++ rootFooter)) :=
  ⟨by decide,
   c10_empty_index onlyExcludedWorld "main" "// wasm bootstrap"
     (by decide) (by decide) (by decide) (by decide) (by decide)⟩

/-- C8 (amended): if the revision query errors, the run terminates
fatally and the fatal message includes the whitespace-trimmed combined
output of the query. -/
theorem c8_revision_error_fatal (w : World) (vers : String) (err : String)
    (hc : w.cloneOk = true) (hr : w.revErr = some err) :
    (gen w vers).fatal = some (revFatalMsg (trimSpace w.revOut) err) ∧
    1 ≤ countSubstr (revFatalMsg (trimSpace w.revOut) err)
      (trimSpace w.revOut) := by
  constructor
  · rw [gen]
    rw [hc, fetchRevision]
    simp [hr]
  · show 1 ≤ countOccs (trimSpace w.revOut).data _
    apply one_le_countOccs _ ("could not retrieve git revision:\n").data
      (("\nerr: " ++ err).data)
    simp [revFatalMsg, List.append_assoc]

/-- witness for the amended C8 on a concrete failing revision query. -/
theorem c8_revision_error_fatal_witness :
    (revErrWorld.cloneOk = true ∧ revErrWorld.revErr = some "exit status 128") ∧
    ((gen revErrWorld "main").fatal =
      some (revFatalMsg (trimSpace revErrWorld.revOut) "exit status 128") ∧
     1 ≤ countSubstr (revFatalMsg (trimSpace revErrWorld.revOut) "exit status 128")
       (trimSpace revErrWorld.revOut)) :=
  ⟨by decide,
   c8_revision_error_fatal revErrWorld "main" "exit status 128"
     (by decide) (by decide)⟩

/-- C8 counterexample: when the combined output of the revision query has
surrounding white space (here `" x "`), the fatal message contains only
the trimmed output, not the raw combined output. -/
theorem c8_raw_output_cex :
    (gen revErrWorld "main").fatal =
      some "could not retrieve git revision:\nx\nerr: exit status 128" ∧
    countSubstr "could not retrieve git revision:\nx\nerr: exit status 128"
      revErrWorld.revOut = 0 := by
  constructor
  · decide
  · decide

/-- C1 (evaluation at the failing input): with `GOOS=linux` inherited from
the invoking process, the single compile invocation's child environment is
the three target variables followed by the inherited entries, and under
the executor's last-duplicate-wins rule the effective GOOS is `linux`, not
the target value `js`. -/
theorem c1_inherited_env_wins :
    (gen goosWorld "main").events.filterMap
        (fun e => match e with
          | Event.compile _ _ _ env => some env
          | _ => none) =
      [["GOBIN=/tmp/go-p5-gen-1/bin", "GOOS=js", "GOARCH=wasm", "GOOS=linux"]] ∧
    envResolve ["GOBIN=/tmp/go-p5-gen-1/bin", "GOOS=js", "GOARCH=wasm",
      "GOOS=linux"] "GOOS" = some "linux" := by
  constructor
  · decide
  · decide

theorem exampleName_inj {x d : String} (h : exampleName x = exampleName d) :
    x = d :=
  strAppend_left_cancel h

theorem countP_flatMap_compileFor (w : World) (d : String) (ds : List String) :
    ((ds.flatMap (exampleEvents w)).countP (isCompileFor d)) = ds.count d := by
  induction ds with
  | nil => simp
  | cons x rest ih =>
    rw [List.flatMap_cons, List.countP_append, ih]
    have hblock : ((exampleEvents w x).countP (isCompileFor d)) =
        if x = d then 1 else 0 := by
      by_cases hxd : x = d
      · subst hxd
        simp [exampleEvents, isCompileFor, compileEvent, List.countP_cons,
          List.countP_nil]
      · have hne : (exampleName x == exampleName d) = false := by
          simp only [beq_eq_false_iff_ne, ne_eq]
          intro h0
          exact hxd (exampleName_inj h0)
        simp [exampleEvents, isCompileFor, compileEvent, List.countP_cons,
          List.countP_nil, hne, hxd]
    rw [hblock, List.count_cons]
    by_cases hxd : x = d
    · subst hxd
      simp [Nat.add_comm]
    · have hb : (x == d) = false := by
        simp only [beq_eq_false_iff_ne, ne_eq]
        exact hxd
      simp [hxd, hb]

/-- C3: during a fully successful run, the orchestrator attempts exactly
one compile invocation for every non-excluded example directory name. -/
theorem c3_exactly_one_compile (w : World) (vers : String) (d : String)
    (h : (gen w vers).fatal = none) (hmem : d ∈ w.pkgs) (hnex : d ∉ excludes)
    (hnd : w.pkgs.Nodup) :
    ((gen w vers).events.countP (isCompileFor d)) = 1 := by
  obtain ⟨hc, hr, hrd, hb, js, hjs, hform⟩ := gen_success w vers h
  rw [hform]
  show ((preEvents w vers js ++ (survivors w.pkgs).flatMap (exampleEvents w) ++
      _).countP (isCompileFor d)) = 1
  rw [List.countP_append, List.countP_append]
  have h1 : ((preEvents w vers js).countP (isCompileFor d)) = 0 := by
    simp [preEvents, isCompileFor, List.countP_cons, List.countP_nil]
  have h2 : (([Event.writeFile "index.html"
      (rootHeaderStr (trimSpace w.revOut) ++ liAll w.pkgs ++ rootFooter),
      Event.removeAll w.tmp]).countP (isCompileFor d)) = 0 := by
    simp [isCompileFor, List.countP_cons, List.countP_nil]
  rw [h1, h2, countP_flatMap_compileFor]
  have hsurv : (survivors w.pkgs).count d = 1 := by
    apply List.count_eq_one_of_mem (hnd.filter _)
    refine List.mem_filter.mpr ⟨hmem, ?_⟩
    simp [hnex]
  rw [hsurv]

/-- witness for C3 at the concrete successful world and example `a`. -/
theorem c3_exactly_one_compile_witness :
    ((gen baseWorld "main").fatal = none ∧ "a" ∈ baseWorld.pkgs ∧
     "a" ∉ excludes ∧ baseWorld.pkgs.Nodup) ∧
    ((gen baseWorld "main").events.countP (isCompileFor "a")) = 1 :=
  ⟨⟨by decide, by decide, by decide, by decide⟩,
   c3_exactly_one_compile baseWorld "main" "a" (by decide) (by decide)
     (by decide) (by decide)⟩

/-- C7: on the fixed example set `a`, `b`, `sketch` with every build
succeeding, the run stages exactly `example/a/a.wasm` and
`example/b/b.wasm`, writes exactly the bootstrap script, the two wrapper
pages, the two copied artifacts and the top-level index, and the index
page consists of the header, the list items for `a` and `b` only, and the
footer. -/
theorem c7_fixed_example_set :
    ((gen baseWorld "main").events.filterMap
        (fun e => match e with
          | Event.gitAdd p => some p
          | _ => none)) = ["example/a/a.wasm", "example/b/b.wasm"] ∧
    ((gen baseWorld "main").events.filterMap
        (fun e => match e with
          | Event.writeFile p _ => some p
          | _ => none)) =
      ["assets/wasm_exec.js", "example/a/index.html", "example/a/a.wasm",
       "example/b/index.html", "example/b/b.wasm", "index.html"] ∧
    (gen baseWorld "main").index =
      some (rootHeaderStr "v0.14.0" ++ liLine "a" ++ liLine "b" ++ rootFooter) := by
  refine ⟨by decide, by decide, ?_⟩
  decide

theorem genLoop_events_shape (w : World) (ds : List String) :
    ∀ acc e, e ∈ (genLoop w ds acc).1 →
      ∃ x, x ∈ ds ∧ x ∉ excludes ∧ e ∈ exampleEvents w x := by
  induction ds with
  | nil =>
    intro acc e he
    simp [genLoop] at he
  | cons x rest ih =>
    intro acc e he
    by_cases hx : excludes.contains x = true
    · rw [genLoop, if_pos hx] at he
      obtain ⟨y, hy1, hy2, hy3⟩ := ih acc e he
      exact ⟨y, List.mem_cons_of_mem x hy1, hy2, hy3⟩
    · have hxf : excludes.contains x = false := by
        cases hcx : excludes.contains x
        · rfl
        · exact absurd hcx hx
      have hxm : x ∉ excludes := by simpa using hxf
      by_cases hbx : w.buildOk x = true
      · have hstep : genLoop w (x :: rest) acc =
            (exampleEvents w x ++ (genLoop w rest (acc ++ liOf x)).1,
             (genLoop w rest (acc ++ liOf x)).2) := by
          rw [genLoop, if_neg hx, if_pos hbx]
        rw [hstep] at he
        rcases List.mem_append.mp he with h1 | h2
        · exact ⟨x, List.mem_cons_self x rest, hxm, h1⟩
        · obtain ⟨y, hy1, hy2, hy3⟩ := ih (acc ++ liOf x) e h2
          exact ⟨y, List.mem_cons_of_mem x hy1, hy2, hy3⟩
      · have hstep : genLoop w (x :: rest) acc =
            ([compileEvent w x],
             Except.error ("could not build WASM " ++ goQuote (exampleName x) ++
               ": " ++ w.buildErr x)) := by
          rw [genLoop, if_neg hx, if_neg hbx]
        rw [hstep] at he
        have he2 : e = compileEvent w x := by simpa using he
        refine ⟨x, List.mem_cons_self x rest, hxm, ?_⟩
        rw [he2]
        simp [exampleEvents]

theorem gen_events_shape (w : World) (vers : String) (e : Event)
    (he : e ∈ (gen w vers).events) :
    e = Event.gitClone vers "https://github.com/go-p5/p5" w.tmp ∨
    e = Event.gitDescribe (w.tmp ++ "/p5") ∨
    e = Event.mkdirAll "assets" ∨
    (∃ c, e = Event.writeFile "assets/wasm_exec.js" c) ∨
    (∃ c, e = Event.writeFile "index.html" c) ∨
    e = Event.removeAll w.tmp ∨
    (∃ x, x ∈ w.pkgs ∧ x ∉ excludes ∧ e ∈ exampleEvents w x) := by
  cases hc : w.cloneOk with
  | false =>
    rw [gen, hc] at he
    simp at he
    exact Or.inl he
  | true =>
  cases hr : w.revErr with
  | some err =>
    rw [gen, hc, fetchRevision] at he
    simp only [hr] at he
    simp at he
    rcases he with he | he
    · exact Or.inl he
    · exact Or.inr (Or.inl he)
  | none =>
  cases hj : w.wasmJs with
  | none =>
    rw [gen, hc, fetchRevision] at he
    simp only [hr, hj] at he
    simp at he
    rcases he with he | he
    · exact Or.inl he
    · exact Or.inr (Or.inl he)
  | some js =>
  cases hrd : w.readDirOk with
  | false =>
    rw [gen, hc, fetchRevision] at he
    simp only [hr, hj, hrd] at he
    simp [preEvents] at he
    rcases he with he | he | he | he
    · exact Or.inl he
    · exact Or.inr (Or.inl he)
    · exact Or.inr (Or.inr (Or.inl he))
    · exact Or.inr (Or.inr (Or.inr (Or.inl ⟨js, he⟩)))
  | true =>
    rw [gen, hc, fetchRevision] at he
    simp only [hr, hj, hrd] at he
    rcases hgl : genLoop w w.pkgs (rootHeaderStr (trimSpace w.revOut)) with ⟨evs, res⟩
    have hevs : evs = (genLoop w w.pkgs (rootHeaderStr (trimSpace w.revOut))).1 := by
      rw [hgl]
    cases res with
    | error msg =>
      rw [hgl] at he
      simp [preEvents] at he
      rcases he with he | he | he | he | he
      · exact Or.inl he
      · exact Or.inr (Or.inl he)
      · exact Or.inr (Or.inr (Or.inl he))
      · exact Or.inr (Or.inr (Or.inr (Or.inl ⟨js, he⟩)))
      · obtain ⟨x, hx1, hx2, hx3⟩ :=
          genLoop_events_shape w w.pkgs (rootHeaderStr (trimSpace w.revOut)) e
            (hevs ▸ he)
        exact Or.inr (Or.inr (Or.inr (Or.inr (Or.inr (Or.inr ⟨x, hx1, hx2, hx3⟩)))))
    | ok root =>
      rw [hgl] at he
      simp [preEvents] at he
      rcases he with he | he | he | he | he | he | he
      · exact Or.inl he
      · exact Or.inr (Or.inl he)
      · exact Or.inr (Or.inr (Or.inl he))
      · exact Or.inr (Or.inr (Or.inr (Or.inl ⟨js, he⟩)))
      · obtain ⟨x, hx1, hx2, hx3⟩ :=
          genLoop_events_shape w w.pkgs (rootHeaderStr (trimSpace w.revOut)) e
            (hevs ▸ he)
        exact Or.inr (Or.inr (Or.inr (Or.inr (Or.inr (Or.inr ⟨x, hx1, hx2, hx3⟩)))))
      · exact Or.inr (Or.inr (Or.inr (Or.inr (Or.inl ⟨_, he⟩))))
      · exact Or.inr (Or.inr (Or.inr (Or.inr (Or.inr (Or.inl he)))))

theorem pagePath_inj {x d : String}
    (h : pagePath (exampleName x) = pagePath (exampleName d)) : x = d :=
  exampleName_inj (strAppend_right_cancel h)

theorem wasmPath_data (x : String) : (wasmPath (exampleName x) x).data =
    "example/".data ++ (x.data ++ ('/' :: (x.data ++ ".wasm".data))) := by
  have hs : "/".data = ['/'] := by decide
  simp [wasmPath, exampleName, List.append_assoc, hs]

theorem wasmPath_inj {x d : String}
    (h : wasmPath (exampleName x) x = wasmPath (exampleName d) d) : x = d := by
  have h1 := congrArg String.data h
  rw [wasmPath_data, wasmPath_data] at h1
  have h2 := List.append_cancel_left h1
  have hlen : x.data.length = d.data.length := by
    have h3 := congrArg List.length h2
    simp only [List.length_cons, List.length_append] at h3
    have e3 : (".wasm".data).length = 5 := by decide
    omega
  exact String.ext (List.append_inj h2 hlen).1

theorem wasmPath_ne_pagePath (x d : String) (hd : d ∈ excludes) :
    wasmPath (exampleName x) x ≠ pagePath (exampleName d) := by
  intro h
  have h1 := congrArg (fun s => s.data.length) h
  simp only [wasmPath, pagePath, exampleName, String.data_append,
    List.append_assoc, List.length_append] at h1
  have e1 : ("example/".data).length = 8 := by decide
  have e2 : ("/".data).length = 1 := by decide
  have e3 : (".wasm".data).length = 5 := by decide
  have e4 : ("/index.html".data).length = 11 := by decide
  rw [e1, e2, e3, e4] at h1
  have e5 : d.data.length = 6 ∨ d.data.length = 10 := by
    rcases (by simpa [excludes] using hd : d = "sketch" ∨ d = "wasm-p5-ex") with rfl | rfl
    · left; decide
    · right; decide
  rcases e5 with h5 | h5 <;> omega

theorem gen_fatal_none_of_index (w : World) (vers : String) (idx : String)
    (h : (gen w vers).index = some idx) : (gen w vers).fatal = none := by
  cases hc : w.cloneOk with
  | false => rw [gen, hc] at h; simp at h
  | true =>
  cases hr : w.revErr with
  | some err =>
    rw [gen, hc, fetchRevision] at h
    simp only [hr] at h
    simp at h
  | none =>
  cases hj : w.wasmJs with
  | none =>
    rw [gen, hc, fetchRevision] at h
    simp only [hr, hj] at h
    simp at h
  | some js =>
  cases hrd : w.readDirOk with
  | false =>
    rw [gen, hc, fetchRevision] at h
    simp only [hr, hj, hrd] at h
    simp at h
  | true =>
    rcases hgl : genLoop w w.pkgs (rootHeaderStr (trimSpace w.revOut)) with ⟨evs, res⟩
    cases res with
    | error msg =>
      rw [gen, hc, fetchRevision] at h
      simp only [hr, hj, hrd] at h
      rw [hgl] at h
      simp at h
    | ok root =>
      rw [gen, hc, fetchRevision]
      simp only [hr, hj, hrd]
      rw [hgl]
      simp

/-- C2: for an excluded example name, the run performs no compile, no
staging and no page-generation step for that name, and the index page (when
written) is assembled from the non-excluded names only, which the excluded
name is not among. -/
theorem c2_excluded_no_steps (w : World) (vers : String) (d : String)
    (hd : d ∈ excludes) (hgood : ∀ x ∈ w.pkgs, goodDirName x) :
    (∀ e ∈ (gen w vers).events,
      isCompileFor d e = false ∧
      (∀ c, e ≠ Event.writeFile (pagePath (exampleName d)) c) ∧
      e ≠ Event.gitAdd (wasmPath (exampleName d) d)) ∧
    d ∉ survivors w.pkgs ∧
    (∀ idx, (gen w vers).index = some idx →
      idx = rootHeaderStr (trimSpace w.revOut) ++
        concatAll ((survivors w.pkgs).map liOf) ++ rootFooter) := by
  have hdc : d = "sketch" ∨ d = "wasm-p5-ex" := by simpa [excludes] using hd
  refine ⟨?_, ?_, ?_⟩
  · intro e he
    rcases gen_events_shape w vers e he with
      h | h | h | ⟨c, h⟩ | ⟨c, h⟩ | h | ⟨x, hx1, hx2, hx3⟩
    · subst h
      exact ⟨rfl, fun c hc => by simp at hc, fun hc => by simp at hc⟩
    · subst h
      exact ⟨rfl, fun c hc => by simp at hc, fun hc => by simp at hc⟩
    · subst h
      exact ⟨rfl, fun c hc => by simp at hc, fun hc => by simp at hc⟩
    · subst h
      refine ⟨rfl, ?_, fun hc => by simp at hc⟩
      intro c' hc
      have hpath : "assets/wasm_exec.js" = pagePath (exampleName d) := by
        injection hc
      rcases hdc with rfl | rfl
      · exact absurd hpath (by decide)
      · exact absurd hpath (by decide)
    · subst h
      refine ⟨rfl, ?_, fun hc => by simp at hc⟩
      intro c' hc
      have hpath : "index.html" = pagePath (exampleName d) := by
        injection hc
      rcases hdc with rfl | rfl
      · exact absurd hpath (by decide)
      · exact absurd hpath (by decide)
    · subst h
      exact ⟨rfl, fun c hc => by simp at hc, fun hc => by simp at hc⟩
    · have hbase : filepathBase (exampleName x) = x := base_exampleName x (hgood x hx1)
      have hxd : x ≠ d := fun h0 => hx2 (h0 ▸ hd)
      simp only [exampleEvents, compileEvent, hbase, List.mem_cons,
        List.mem_singleton, List.not_mem_nil, or_false] at hx3
      rcases hx3 with rfl | rfl | rfl | rfl | rfl
      · refine ⟨?_, fun c hc => by simp at hc, fun hc => by simp at hc⟩
        show (exampleName x == exampleName d) = false
        simp only [beq_eq_false_iff_ne, ne_eq]
        intro h0
        exact hxd (exampleName_inj h0)
      · exact ⟨rfl, fun c hc => by simp at hc, fun hc => by simp at hc⟩
      · refine ⟨rfl, ?_, fun hc => by simp at hc⟩
        intro c' hc
        injection hc with h1 h2
        exact hxd (pagePath_inj h1)
      · refine ⟨rfl, ?_, fun hc => by simp at hc⟩
        intro c' hc
        injection hc with h1 h2
        exact wasmPath_ne_pagePath x d hd h1
      · refine ⟨rfl, fun c hc => by simp at hc, ?_⟩
        intro hc
        injection hc with h1
        exact hxd (wasmPath_inj h1)
  · intro hmem
    have h2 := (List.mem_filter.mp hmem).2
    simp [hd] at h2
  · intro idx hidx
    have hf := gen_fatal_none_of_index w vers idx hidx
    obtain ⟨hc, hr, hrd, hb, js, hjs, hform⟩ := gen_success w vers hf
    rw [hform] at hidx
    have h2 : rootHeaderStr (trimSpace w.revOut) ++ liAll w.pkgs ++ rootFooter =
        idx := by
      exact Option.some.inj hidx
    rw [← h2]
    rfl

/-- witness for C2 at the concrete successful world and the excluded name
`sketch`. -/
theorem c2_excluded_no_steps_witness :
    ("sketch" ∈ excludes ∧ ∀ x ∈ baseWorld.pkgs, goodDirName x) ∧
    ((∀ e ∈ (gen baseWorld "main").events,
       isCompileFor "sketch" e = false ∧
       (∀ c, e ≠ Event.writeFile (pagePath (exampleName "sketch")) c) ∧
       e ≠ Event.gitAdd (wasmPath (exampleName "sketch") "sketch")) ∧
     "sketch" ∉ survivors baseWorld.pkgs ∧
     (∀ idx, (gen baseWorld "main").index = some idx →
       idx = rootHeaderStr (trimSpace baseWorld.revOut) ++
         concatAll ((survivors baseWorld.pkgs).map liOf) ++ rootFooter)) :=
  ⟨⟨by decide, by simp only [goodDirName]; decide⟩,
   c2_excluded_no_steps baseWorld "main" "sketch" (by decide)
     (by simp only [goodDirName]; decide)⟩

/-- C9: after a fully successful run, the removal of the temporary
directory is the final effect of the trace, and every path created or
overwritten outside the temporary directory is one of the declared
outputs. -/
theorem c9_cleanup_and_frame (w : World) (vers : String)
    (h : (gen w vers).fatal = none) :
    (gen w vers).events.getLast? = some (Event.removeAll w.tmp) ∧
    ∀ e ∈ (gen w vers).events, ∀ p ∈ writesOf e, allowedPath w.pkgs p := by
  obtain ⟨hc, hr, hrd, hb, js, hjs, hform⟩ := gen_success w vers h
  constructor
  · rw [hform]
    simp [List.getLast?_append]
  · intro e he p hp
    rw [hform] at he
    simp only [List.mem_append, List.mem_cons, List.not_mem_nil, or_false] at he
    rcases he with (he | he) | he | he
    · simp only [preEvents, List.mem_cons, List.not_mem_nil, or_false] at he
      rcases he with rfl | rfl | rfl | rfl
      · simp [writesOf] at hp
      · simp [writesOf] at hp
      · simp only [writesOf, List.mem_singleton] at hp
        subst hp
        exact Or.inl rfl
      · simp only [writesOf, List.mem_singleton] at hp
        subst hp
        exact Or.inr (Or.inl rfl)
    · obtain ⟨x, hx1, hx2⟩ := List.mem_flatMap.mp he
      simp only [exampleEvents, compileEvent, List.mem_cons, List.not_mem_nil,
        or_false] at hx2
      rcases hx2 with rfl | rfl | rfl | rfl | rfl
      · simp [writesOf] at hp
      · simp only [writesOf, List.mem_singleton] at hp
        subst hp
        exact Or.inr (Or.inr (Or.inr ⟨x, hx1, Or.inl rfl⟩))
      · simp only [writesOf, List.mem_singleton] at hp
        subst hp
        exact Or.inr (Or.inr (Or.inr ⟨x, hx1, Or.inr (Or.inl rfl)⟩))
      · simp only [writesOf, List.mem_singleton] at hp
        subst hp
        exact Or.inr (Or.inr (Or.inr ⟨x, hx1, Or.inr (Or.inr rfl)⟩))
      · simp [writesOf] at hp
    · subst he
      simp only [writesOf, List.mem_singleton] at hp
      subst hp
      exact Or.inr (Or.inr (Or.inl rfl))
    · subst he
      simp [writesOf] at hp

/-- witness for C9 on the concrete successful world. -/
theorem c9_cleanup_and_frame_witness :
    (gen baseWorld "main").fatal = none ∧
    ((gen baseWorld "main").events.getLast? =
       some (Event.removeAll baseWorld.tmp) ∧
     ∀ e ∈ (gen baseWorld "main").events, ∀ p ∈ writesOf e,
       allowedPath baseWorld.pkgs p) :=
  ⟨by decide, c9_cleanup_and_frame baseWorld "main" (by decide)⟩

theorem index_ne_pagePath (x : String) :
    "index.html" ≠ pagePath (exampleName x) := by
  intro h
  have h2 : (pagePath (exampleName x)).data =
      "example/".data ++ (x.data ++ "/index.html".data) := by
    simp [pagePath, exampleName, List.append_assoc]
  have h1 : ("index.html" : String).data.head? =
      ("example/".data ++ (x.data ++ "/index.html".data)).head? := by
    rw [← h2, h]
  rw [head_append_of_ne_nil (by decide)] at h1
  revert h1
  decide

theorem index_ne_wasmPath (x pkg : String) :
    "index.html" ≠ wasmPath (exampleName x) pkg := by
  intro h
  have h2 : (wasmPath (exampleName x) pkg).data =
      "example/".data ++ (x.data ++ ("/".data ++ (pkg.data ++ ".wasm".data))) := by
    simp [wasmPath, exampleName, List.append_assoc]
  have h1 : ("index.html" : String).data.head? =
      ("example/".data ++ (x.data ++ ("/".data ++ (pkg.data ++ ".wasm".data)))).head? := by
    rw [← h2, h]
  rw [head_append_of_ne_nil (by decide)] at h1
  revert h1
  decide

/-- C4: when the first failing build is reached, the run ends fatally with
the build error, the index page is never produced (no write of
`index.html` occurs in the trace), while the wrapper page, the copied
artifact and the staging of every earlier non-excluded example are in the
trace. -/
theorem c4_build_failure_aborts (w : World) (vers : String)
    (xs : List String) (d : String) (ys : List String) (js : String)
    (hc : w.cloneOk = true) (hr : w.revErr = none) (hj : w.wasmJs = some js)
    (hrd : w.readDirOk = true)
    (hsplit : w.pkgs = xs ++ d :: ys)
    (hxs : ∀ x ∈ xs, excludes.contains x = false → w.buildOk x = true)
    (hd : excludes.contains d = false) (hb : w.buildOk d = false) :
    (gen w vers).fatal =
      some ("could not build WASM " ++ goQuote (exampleName d) ++ ": " ++
        w.buildErr d) ∧
    (gen w vers).index = none ∧
    (∀ c, Event.writeFile "index.html" c ∉ (gen w vers).events) ∧
    (∀ x ∈ xs, excludes.contains x = false →
      Event.writeFile (pagePath (exampleName x))
        (indexHTMLStr (titleOf (filepathBase (exampleName x)))
          (srcOf (filepathBase (exampleName x)))) ∈ (gen w vers).events ∧
      Event.writeFile (wasmPath (exampleName x) (filepathBase (exampleName x)))
        (w.wasmBin (filepathBase (exampleName x))) ∈ (gen w vers).events ∧
      Event.gitAdd (wasmPath (exampleName x) (filepathBase (exampleName x)))
        ∈ (gen w vers).events) := by
  have hgen : gen w vers =
      { events := preEvents w vers js ++
          ((survivors xs).flatMap (exampleEvents w) ++ [compileEvent w d]),
        fatal := some ("could not build WASM " ++ goQuote (exampleName d) ++
          ": " ++ w.buildErr d),
        index := none } := by
    rw [gen, hc, fetchRevision]
    simp only [hr, hj, hrd]
    rw [hsplit, genLoop_fails w xs d ys hxs hd hb]
    simp
  refine ⟨by rw [hgen], by rw [hgen], ?_, ?_⟩
  · intro c hmem
    rw [hgen] at hmem
    simp only [List.mem_append, List.mem_cons, List.not_mem_nil, or_false,
      preEvents] at hmem
    rcases hmem with (hmem | hmem | hmem | hmem) | hmem | hmem
    · simp at hmem
    · simp at hmem
    · simp at hmem
    · have := (Event.writeFile.inj hmem).1
      exact absurd this (by decide)
    · obtain ⟨x, hx1, hx2⟩ := List.mem_flatMap.mp hmem
      simp only [exampleEvents, compileEvent, List.mem_cons, List.not_mem_nil,
        or_false] at hx2
      rcases hx2 with hx2 | hx2 | hx2 | hx2 | hx2
      · simp at hx2
      · simp at hx2
      · exact index_ne_pagePath x (Event.writeFile.inj hx2).1
      · exact index_ne_wasmPath x (filepathBase (exampleName x))
          (Event.writeFile.inj hx2).1
      · simp at hx2
    · simp [compileEvent] at hmem
  · intro x hx hxf
    rw [hgen]
    have hxs' : x ∈ survivors xs := by
      refine List.mem_filter.mpr ⟨hx, ?_⟩
      rw [hxf]
      rfl
    refine ⟨?_, ?_, ?_⟩ <;>
      · simp only [List.mem_append]
        exact Or.inr (Or.inl (List.mem_flatMap.mpr ⟨x, hxs', by simp [exampleEvents]⟩))

/-- witness for C4: the build of `b` fails after `a` succeeded. -/
theorem c4_build_failure_aborts_witness :
    (failBWorld.cloneOk = true ∧ failBWorld.revErr = none ∧
     failBWorld.wasmJs = some "// wasm bootstrap" ∧
     failBWorld.readDirOk = true ∧
     failBWorld.pkgs = ["a"] ++ "b" :: ["c"] ∧
     (∀ x ∈ ["a"], excludes.contains x = false → failBWorld.buildOk x = true) ∧
     excludes.contains "b" = false ∧ failBWorld.buildOk "b" = false) ∧
    ((gen failBWorld "main").fatal =
      some ("could not build WASM " ++ goQuote (exampleName "b") ++ ": " ++
        failBWorld.buildErr "b") ∧
     (gen failBWorld "main").index = none ∧
     (∀ c, Event.writeFile "index.html" c ∉ (gen failBWorld "main").events) ∧
     (∀ x ∈ ["a"], excludes.contains x = false →
       Event.writeFile (pagePath (exampleName x))
         (indexHTMLStr (titleOf (filepathBase (exampleName x)))
           (srcOf (filepathBase (exampleName x)))) ∈ (gen failBWorld "main").events ∧
       Event.writeFile (wasmPath (exampleName x) (filepathBase (exampleName x)))
         (failBWorld.wasmBin (filepathBase (exampleName x)))
         ∈ (gen failBWorld "main").events ∧
       Event.gitAdd (wasmPath (exampleName x) (filepathBase (exampleName x)))
         ∈ (gen failBWorld "main").events)) :=
  ⟨⟨by decide, by decide, by decide, by decide, by decide, by decide, by decide,
    by decide⟩,
   c4_build_failure_aborts failBWorld "main" ["a"] "b" ["c"] "// wasm bootstrap"
     (by decide) (by decide) (by decide) (by decide) (by decide) (by decide)
     (by decide) (by decide)⟩
